import Mathlib

/-!
Verification development for the agentic React development pipeline
(`without_mcp.py`).  Python strings are modelled as `List Char`; Python
dictionaries (which preserve insertion order and overwrite values of
existing keys in place) are modelled as association lists with an
`upsert` operation.  Network, LLM, subprocess and JSON-library calls are
opaque collaborators and enter the model as explicit parameters carrying
their observable results, exactly as the source consumes them.
-/

namespace Orch

/-- Python strings as lists of characters. -/
abbrev LC := List Char

/-- Python `str.lower`, character by character (all strings of interest are ASCII). -/
def pyLower (s : LC) : LC := s.map Char.toLower

/-- Whitespace recognised by Python `str.strip`. -/
def pyIsSpace (c : Char) : Bool :=
  c == ' ' || c == '\t' || c == '\n' || c == '\r' || c == '\x0b' || c == '\x0c'

/-- Left half of Python `str.strip`. -/
def trimLeft (s : LC) : LC := s.dropWhile pyIsSpace

/-- Right half of Python `str.strip`. -/
def trimRight (s : LC) : LC := (s.reverse.dropWhile pyIsSpace).reverse

/-- Python `str.strip()`. -/
def strip (s : LC) : LC := trimRight (trimLeft s)

/-- Locate the first occurrence of `sep` in `s`: returns the text before the
occurrence and the text after it.  This is the engine behind the models of
Python `in`, `str.split(sep, 1)`, `str.split(sep)` and `str.replace`. -/
def findSplit (sep : LC) : LC → Option (LC × LC)
  | [] => if sep.isEmpty then some ([], []) else none
  | c :: t =>
    if sep.isPrefixOf (c :: t) then some ([], (c :: t).drop sep.length)
    else (findSplit sep t).map (fun p => (c :: p.1, p.2))

/-- Python `sep in s` (substring containment test). -/
def hasSub (sep s : LC) : Bool := (findSplit sep s).isSome

/-- Fuel-driven worker for `splitOnSub`; the fuel strictly exceeds the length
of the string, which bounds the number of separator occurrences. -/
def splitFuel (sep : LC) : Nat → LC → List LC
  | 0, s => [s]
  | n + 1, s =>
    match findSplit sep s with
    | none => [s]
    | some (b, a) => b :: splitFuel sep n a

/-- Python `s.split(sep)` for a non-empty separator. -/
def splitOnSub (sep s : LC) : List LC := splitFuel sep (s.length + 1) s

/-- Fuel-driven worker for `replaceAll`. -/
def replFuel (pat : LC) : Nat → LC → LC
  | 0, s => s
  | n + 1, s =>
    match findSplit pat s with
    | none => s
    | some (b, a) => b ++ replFuel pat n a

/-- Python `s.replace(pat, '')` for a non-empty pattern: delete every
left-to-right non-overlapping occurrence of `pat`. -/
def replaceAll (pat s : LC) : LC := replFuel pat (s.length + 1) s

/-- Python dict assignment `d[k] = v` on an insertion-ordered association
list: overwrite the value of an existing key in place, else append. -/
def upsert : List (LC × LC) → LC → LC → List (LC × LC)
  | [], k, v => [(k, v)]
  | e :: rest, k, v => if e.1 = k then (k, v) :: rest else e :: upsert rest k v

/-- Python `{**a, **b}`: entries of `b` upserted into `a`. -/
def mergeDicts (a b : List (LC × LC)) : List (LC × LC) :=
  b.foldl (fun acc e => upsert acc e.1 e.2) a

/-! ## Artifact Parser (developer_node / tester_node parsing loop) -/

/-- Start marker of the artifact delimiter convention. -/
def fileMarker : LC := "===FILE:".data

/-- Separator matched by `part.split('===', 1)`. -/
def sep3 : LC := "===".data

/-- End marker of the artifact delimiter convention. -/
def endMarker : LC := "===END FILE===".data

/-- Body of the parsing loop over `parts[1:]`:
`if '===' in part: header, content = part.split('===', 1);
 files[header.strip()] = content.replace('===END FILE===', '').strip()`.
A part with no `===` separator is skipped. -/
def parseParts : List LC → List (LC × LC) → List (LC × LC)
  | [], acc => acc
  | part :: rest, acc =>
    match findSplit sep3 part with
    | none => parseParts rest acc
    | some (header, content) =>
      parseParts rest (upsert acc (strip header) (strip (replaceAll endMarker content)))

/-- The Artifact Parser: `parts = text.split('===FILE:')` followed by the
loop over `parts[1:]` (the text before the first start marker is dropped). -/
def parseFiles (text : LC) : List (LC × LC) :=
  match splitOnSub fileMarker text with
  | [] => []
  | _ :: parts => parseParts parts []

/-- Serialization with the delimiter convention of the spec: for each entry,
a start token carrying the path (`===FILE: path===`), a newline, the body, a
newline, the end token and a newline; segments concatenated.  This definition
follows the spec's words (the convention in the generation prompt); it is the
counterpart the parser is measured against in the round-trip claim. -/
def serializeFiles (m : List (LC × LC)) : LC :=
  m.foldr
    (fun e acc =>
      fileMarker ++ [' '] ++ e.1 ++ sep3 ++ ['\n'] ++ e.2 ++ ['\n'] ++ endMarker ++ ['\n'] ++ acc)
    []

/-! ## Approval Gate (manager_agent / chat_with_manager) -/

/-- One chat message. -/
structure ChatMsg where
  role : LC
  content : LC
deriving DecidableEq

/-- Result of a `call_claude` invocation: the collaborator never raises and
signals failure in the return value. -/
structure GenResult where
  content : LC
  success : Bool
deriving DecidableEq

/-- The fixed approval keyword list of `manager_agent`. -/
def approvalKeywords : List LC :=
  ["approved".data, "looks good".data, "proceed".data, "start building".data,
   "yes that\x27s good".data, "perfect".data, "correct".data, "satisfied".data]

/-- `any(keyword in user_message.lower() for keyword in approval_keywords)`. -/
def isApprovedMsg (msg : LC) : Bool :=
  approvalKeywords.any (fun k => hasSub k (pyLower msg))

/-- Decoration prepended to the approval reply. -/
def approvedPre : LC := "✅ **Requirements Approved!**\n\n".data

/-- Decoration appended to the approval reply. -/
def approvedPost : LC := "\n\nProceeding to development...".data

/-- `manager_agent(user_message, conversation_history)`: appends the user
message, tests the approval keywords on the lowercased message, invokes the
generation collaborator (the summary call when approved, the continuation
call otherwise), appends the assistant reply and returns
`(response, updated_history, is_approved)`.  The two possible collaborator
replies are passed in as `genSummary`/`genContinue`. -/
def manager_agent (genSummary genContinue : GenResult) (userMessage : LC)
    (hist : List ChatMsg) : LC × List ChatMsg × Bool :=
  let hist1 := hist ++ [⟨"user".data, userMessage⟩]
  if isApprovedMsg userMessage then
    let resp := approvedPre ++ genSummary.content ++ approvedPost
    (resp, hist1 ++ [⟨"assistant".data, resp⟩], true)
  else
    let resp := genContinue.content
    (resp, hist1 ++ [⟨"assistant".data, resp⟩], false)

/-- The controller state touched by `AgenticDevSystem.chat_with_manager`. -/
structure MgrState where
  conversation_history : List ChatMsg
  requirements : Option LC
deriving DecidableEq

/-- `chat_with_manager`: drives `manager_agent`, and on approval stores the
reply as the finalized requirements; returns the reply, the new controller
state, and the status string handed to the UI. -/
def chat_with_manager (genSummary genContinue : GenResult) (userMessage : LC)
    (st : MgrState) : LC × MgrState × LC :=
  let r := manager_agent genSummary genContinue userMessage st.conversation_history
  if r.2.2 then (r.1, ⟨r.2.1, some r.1⟩, "approved".data)
  else (r.1, ⟨r.2.1, st.requirements⟩, "continue".data)

/-! ## Repository Sync (github_operation) -/

/-- Observable part of the GET-contents response: HTTP status and the `sha`
field of the JSON body (absent when the body carries none). -/
structure GetResp where
  status : Nat
  sha : Option LC
deriving DecidableEq

/-- The JSON payload assembled for the PUT-contents request.  The base64
encoding of the content is an external bijection and the raw content is
carried instead. -/
structure CommitPayload where
  message : LC
  content : LC
  branch : LC
  sha : Option LC
deriving DecidableEq

/-- External API calls issued by `github_operation("commit_file", ...)`. -/
inductive ApiCall where
  | getContents (path : LC)
  | putContents (path : LC) (payload : CommitPayload)
deriving DecidableEq

/-- Python truthiness filter applied by `if sha: payload['sha'] = sha`:
`None` and the empty string are falsy. -/
def truthyStr : Option LC → Option LC
  | some s => if s = [] then none else some s
  | none => none

/-- Payload construction of the `commit_file` branch: the revision token is
taken from the GET response only when that response had status 200, and is
attached only when truthy. -/
def commitPayloadOf (g : GetResp) (content message branch : LC) : CommitPayload :=
  let sha := if g.status = 200 then g.sha else none
  { message := message, content := content, branch := branch, sha := truthyStr sha }

/-- `github_operation("commit_file", ...)`: with no token, fail without any
API traffic; otherwise GET the current file metadata, build the payload, PUT
it, and report success iff the PUT status is 200 or 201.  Returns the result
together with the ordered trace of API calls. -/
def commit_file (token : Option LC) (g : GetResp) (putStatus : Nat)
    (path content message branch : LC) : Bool × List ApiCall :=
  match token with
  | none => (false, [])
  | some _ =>
    (decide (putStatus = 200 ∨ putStatus = 201),
     [ApiCall.getContents path,
      ApiCall.putContents path (commitPayloadOf g content message branch)])

/-! ## Development state and stage handlers -/

/-- The slice of the plan JSON the engine itself reads (`project_name`; a
missing key models a parsed plan without that field, which makes the
follow-up key access raise). -/
structure PlanJson where
  project_name : Option LC
deriving DecidableEq

/-- `state['github_repo']` — the local-only fallback dict has no owner and
no branch key, hence the optional fields. -/
structure GhRepo where
  name : LC
  url : LC
  owner : Option LC
  branch : Option LC
deriving DecidableEq

/-- The fields of `DevelopmentState` read or written by the modelled stage
handlers. -/
structure DState where
  requirements : LC
  conversation_history : List ChatMsg
  development_plan : Option PlanJson
  code_files : List (LC × LC)
  unit_tests : List (LC × LC)
  e2e_tests : List (LC × LC)
  deployment_url : Option LC
  deployment_platform : LC
  github_repo : Option GhRepo
  current_stage : LC
  iteration_count : Nat
  errors : List LC
  messages : List ChatMsg
deriving DecidableEq

/-- `planner_node`: one generation call; on success, brace-extraction plus
`json.loads` (folded into the opaque `jparse` collaborator) yields the plan;
a parse failure — including the `KeyError` raised by the progress message
when `project_name` is missing, which fires after the plan was already
stored — appends the single diagnostic `Failed to parse plan`.  A generation
failure is silent.  The stage field is set unconditionally at the end. -/
def planner_node (jparse : LC → Option PlanJson) (gen : GenResult) (s : DState) : DState :=
  let s1 :=
    if gen.success then
      match jparse gen.content with
      | none => { s with errors := s.errors ++ ["Failed to parse plan".data] }
      | some plan =>
        match plan.project_name with
        | none =>
          { s with development_plan := some plan,
                   errors := s.errors ++ ["Failed to parse plan".data] }
        | some pn =>
          { s with development_plan := some plan,
                   messages := s.messages ++ [⟨"planner".data, "Plan created: ".data ++ pn⟩] }
    else s
  { s1 with current_stage := "planning_complete".data }

/-- `developer_node`: two generation calls (code, then unit tests), each
parsed with the Artifact Parser when successful; `plan['project_name']` on a
missing plan or missing key raises (`none`).  The stage field is set and the
iteration counter incremented unconditionally at the end. -/
def developer_node (genCode genTests : GenResult) (s : DState) : Option DState :=
  match s.development_plan with
  | none => none
  | some plan =>
    match plan.project_name with
    | none => none
    | some _ =>
      let s1 := if genCode.success then { s with code_files := parseFiles genCode.content } else s
      let s2 := if genTests.success then { s1 with unit_tests := parseFiles genTests.content } else s1
      some { s2 with current_stage := "code_written".data,
                     iteration_count := s2.iteration_count + 1 }

/-- `tester_node`: one generation call parsed with the Artifact Parser;
raises on a missing plan like the developer stage; sets the stage field
unconditionally. -/
def tester_node (gen : GenResult) (s : DState) : Option DState :=
  match s.development_plan with
  | none => none
  | some plan =>
    match plan.project_name with
    | none => none
    | some _ =>
      let s1 := if gen.success then { s with e2e_tests := parseFiles gen.content } else s
      some { s1 with current_stage := "tests_written".data }

/-- Observable result of `deploy_to_vercel` (network collaborator; it never
raises — its body is wrapped in a catch-all handler). -/
structure DeployResult where
  success : Bool
  url : LC
  error : LC
deriving DecidableEq

/-- `deployer_node`: records the deployment URL on success, appends a
diagnostic on failure, and advances the stage field either way. -/
def deployer_node (dep : DeployResult) (s : DState) : Option DState :=
  match s.development_plan with
  | none => none
  | some plan =>
    match plan.project_name with
    | none => none
    | some _ =>
      let s1 :=
        if dep.success then
          { s with deployment_url := some dep.url, deployment_platform := "vercel".data }
        else
          { s with errors := s.errors ++ ["Deployment failed: ".data ++ dep.error] }
      some { s1 with current_stage := "deployment_complete".data }

/-! ## GitHub agent node -/

/-- Observable result of `github_operation("create_repo", ...)`; an absent
token or a non-201 response both surface as `success = false`. -/
structure CreateRepoRes where
  success : Bool
  repo_url : LC
  owner : LC
  name : LC
deriving DecidableEq

/-- One milestone commit issued by the GitHub agent. -/
structure CommitCall where
  path : LC
  content : LC
  message : LC
deriving DecidableEq

/-- `state.get('development_plan', {}).get('project_name', 'react-app')`:
the `development_plan` key is always present in the state dict, so the `{}`
default of the first `get` never applies.  When the stored value is `None`
(every run's initial state), the chained `.get` raises `AttributeError`
(`none` here); when it is a parsed plan, a missing `project_name` key falls
back to `'react-app'`. -/
def projectNameOf (s : DState) : Option LC :=
  match s.development_plan with
  | some plan => some (plan.project_name.getD "react-app".data)
  | none => none

/-- `project_name.lower().replace(' ', '-')`. -/
def sanitizeName (s : LC) : LC :=
  (pyLower s).map (fun c => if c = ' ' then '-' else c)

/-- README content of the final milestone commit; Python interpolates the
literal `None` when no deployment URL is present. -/
def readmeContent (pname : LC) (url : Option LC) : LC :=
  "# ".data ++ pname ++ "\n\nLive: ".data ++ (match url with | some u => u | none => "None".data)

/-- The sentinel URL marking local-only mode. -/
def localOnly : LC := "local-only".data

/-- `github_agent_node`: its second statement reads the project name off the
development plan, which raises (`none`) whenever the plan is `None` — before
any repository logic runs.  When that lookup survives: on the first call (no
repository in the state) it records either the created repository or the
local-only sentinel; on later calls it is a strict no-op when the sentinel
is set, and otherwise issues at most ten milestone commits selected by a
substring test on the stage field.  Returns the state together with the
trace of commit calls. -/
def github_agent_node (create : CreateRepoRes) (s : DState) :
    Option (DState × List CommitCall) :=
  match projectNameOf s with
  | none => none
  | some pn0 =>
    let pname := sanitizeName pn0
    match s.github_repo with
    | none =>
      if create.success then
        some ({ s with github_repo :=
            (some ⟨create.name, create.repo_url, some create.owner, some "main".data⟩) }, [])
      else
        some ({ s with github_repo := some ⟨pname, localOnly, none, none⟩ }, [])
    | some repo =>
      if repo.url = localOnly then some (s, [])
      else
        let stage := s.current_stage
        let fm :=
          if hasSub "code_written".data stage then
            (mergeDicts s.code_files s.unit_tests,
             "feat: Add application code with unit tests".data)
          else if hasSub "tests_written".data stage then
            (s.e2e_tests, "test: Add E2E Playwright tests".data)
          else if hasSub "deployment_complete".data stage then
            ([("README.md".data, readmeContent pname s.deployment_url)],
             "docs: Add deployment URL".data)
          else ([], [])
        if fm.1 = [] then some (s, [])
        else some (s, (fm.1.take 10).map (fun e => ⟨e.1, e.2, fm.2⟩))

/-! ## Workflow graph -/

/-- All collaborator responses one run consumes. -/
structure Env where
  createRes : CreateRepoRes
  planGen : GenResult
  jparse : LC → Option PlanJson
  codeGen : GenResult
  unitGen : GenResult
  e2eGen : GenResult
  deploy : DeployResult

/-- The eight nodes of `create_workflow`, in the order fixed by its edge
list: github_init, planner, developer, github_commit_code, tester,
github_commit_tests, deployer, github_commit_deploy.  A node returns `none`
when the handler raises. -/
def pipelineNodes (env : Env) : List (DState → Option DState) :=
  [fun s => (github_agent_node env.createRes s).map Prod.fst,
   fun s => some (planner_node env.jparse env.planGen s),
   fun s => developer_node env.codeGen env.unitGen s,
   fun s => (github_agent_node env.createRes s).map Prod.fst,
   fun s => tester_node env.e2eGen s,
   fun s => (github_agent_node env.createRes s).map Prod.fst,
   fun s => deployer_node env.deploy s,
   fun s => (github_agent_node env.createRes s).map Prod.fst]

/-- Run a node list sequentially, halting on a raise. -/
def runNodes : List (DState → Option DState) → DState → Option DState
  | [], s => some s
  | f :: fs, s =>
    match f s with
    | none => none
    | some s1 => runNodes fs s1

/-- The stage field observed after each completed node. -/
def stageTrace : List (DState → Option DState) → DState → List LC
  | [], _ => []
  | f :: fs, s =>
    match f s with
    | none => []
    | some s1 => s1.current_stage :: stageTrace fs s1

/-- Rank of the stage values the code actually assigns, in the order the
workflow produces them. -/
def stageRank (st : LC) : Nat :=
  if st = "initial".data then 0
  else if st = "planning_complete".data then 1
  else if st = "code_written".data then 2
  else if st = "tests_written".data then 3
  else if st = "deployment_complete".data then 4
  else 100

/-- The initial `DevelopmentState` assembled by `run_development`. -/
def initState (req : LC) (hist : List ChatMsg) : DState :=
  { requirements := req
    conversation_history := hist
    development_plan := none
    code_files := []
    unit_tests := []
    e2e_tests := []
    deployment_url := none
    deployment_platform := "vercel".data
    github_repo := none
    current_stage := "initial".data
    iteration_count := 0
    errors := []
    messages := [] }

/-! ## Test Result Aggregator (run_unit_tests / run_e2e_tests) -/

/-- The fields of the Vitest JSON report the aggregator reads; `json.loads`
is the opaque collaborator producing it. -/
structure VitestReport where
  numTotalTests : Option Nat
  numPassedTests : Option Nat
  numFailedTests : Option Nat
  testResults : List LC
deriving DecidableEq

/-- The `TestSummary` shape returned by both aggregators. -/
structure TestSummary where
  success : Bool
  error : Option LC
  total : Nat
  passed : Nat
  failed : Nat
  details : List LC
deriving DecidableEq

/-- Python `s.count(c)` for a single-character needle. -/
def countChar (c : Char) (s : LC) : Nat := s.count c

/-- `run_unit_tests` observable behaviour: an exception anywhere in the
subprocess phase yields the failure record; otherwise the structured report
is used when `json.loads` succeeds on stdout, and the glyph-counting
fallback over `stdout + stderr` is used when it does not. -/
def run_unit_tests : Except LC (LC × LC × Option VitestReport) → TestSummary
  | .error e => ⟨false, some e, 0, 0, 0, []⟩
  | .ok (stdout, stderr, parsed) =>
    match parsed with
    | some d =>
      ⟨true, none, d.numTotalTests.getD 0, d.numPassedTests.getD 0,
       d.numFailedTests.getD 0, d.testResults⟩
    | none =>
      let lines := stdout ++ stderr
      ⟨true, none, countChar '✓' lines + countChar '✗' lines,
       countChar '✓' lines, countChar '✗' lines, []⟩

/-! ## E2E test execution (run_e2e_tests) -/

/-- One Playwright test entry as read by the aggregator. -/
structure PWTest where
  title : LC
  status : LC
  errorMessage : Option LC
deriving DecidableEq

/-- Playwright report: suites of specs of tests. -/
structure PWReport where
  suites : List (List (List PWTest))
deriving DecidableEq

/-- Flattened detail entry. -/
structure PWDetail where
  test : LC
  status : LC
  error : Option LC
deriving DecidableEq

/-- Summary shape of `run_e2e_tests`. -/
structure E2ESummary where
  success : Bool
  error : Option LC
  total : Nat
  passed : Nat
  failed : Nat
  details : List PWDetail
deriving DecidableEq

/-- The nested aggregation loop of `run_e2e_tests`: every status other than
the literal `passed` counts as failed; the error message is surfaced only
for non-passing tests. -/
def summarizeE2E (r : PWReport) : E2ESummary :=
  let tests := (r.suites.map (fun su => su.flatten)).flatten
  let passed := (tests.filter (fun t => t.status = "passed".data)).length
  let failed := (tests.filter (fun t => ¬ t.status = "passed".data)).length
  ⟨true, none, tests.length, passed, failed,
   tests.map (fun t =>
     ⟨t.title, t.status, if t.status = "passed".data then none else t.errorMessage⟩)⟩

/-- Lifecycle events of the spawned dev-server process. -/
inductive SrvEvent where
  | spawnServer
  | terminateServer
deriving DecidableEq

/-- `run_e2e_tests` control flow with its process-lifecycle trace:
`installFail = some e` models an exception before the dev server is spawned;
after the spawn, the Playwright invocation either raises (`.error e`, e.g.
`TimeoutExpired` after its 120-second bound — control jumps to the outer
handler, which returns without terminating the server) or returns output
whose JSON parse (`.ok parsed`) feeds the aggregation; on the return path
the server is terminated before parsing. -/
def run_e2e_tests (installFail : Option LC) (runOutcome : Except LC (Option PWReport)) :
    E2ESummary × List SrvEvent :=
  match installFail with
  | some e => (⟨false, some e, 0, 0, 0, []⟩, [])
  | none =>
    match runOutcome with
    | .error e => (⟨false, some e, 0, 0, 0, []⟩, [SrvEvent.spawnServer])
    | .ok parsed =>
      let evs := [SrvEvent.spawnServer, SrvEvent.terminateServer]
      match parsed with
      | some rep => (summarizeE2E rep, evs)
      | none => (⟨false, some "Failed to parse test results".data, 0, 0, 0, []⟩, evs)

/-! ## Lemmas about the string primitives -/

theorem findSplit_sound {sep : LC} : ∀ {s b a : LC}, findSplit sep s = some (b, a) → s = b ++ sep ++ a := by
  intro s
  induction s with
  | nil =>
    intro b a h
    simp only [findSplit] at h
    split at h
    · next hemp =>
      simp only [Option.some.injEq, Prod.mk.injEq] at h
      obtain ⟨hb, ha⟩ := h
      subst hb; subst ha
      simp_all [List.isEmpty_iff]
    · exact absurd h (by simp)
  | cons c t ih =>
    intro b a h
    simp only [findSplit] at h
    split at h
    · next hpre =>
      rw [List.isPrefixOf_iff_prefix] at hpre
      obtain ⟨r, hr⟩ := hpre
      simp only [Option.some.injEq, Prod.mk.injEq] at h
      obtain ⟨hb, ha⟩ := h
      subst hb
      rw [← ha, ← hr, List.nil_append, List.drop_left]
    · cases hf : findSplit sep t with
      | none => rw [hf] at h; simp at h
      | some p =>
        obtain ⟨b', a'⟩ := p
        rw [hf] at h
        simp only [Option.map_some', Option.some.injEq, Prod.mk.injEq] at h
        obtain ⟨hb, ha⟩ := h
        subst ha
        rw [← hb, ih hf]
        simp

theorem findSplit_none_iff {sep : LC} (hsep : sep ≠ []) :
    ∀ {s : LC}, findSplit sep s = none ↔ ¬ sep <:+: s := by
  intro s
  induction s with
  | nil =>
    simp only [findSplit, List.isEmpty_iff, List.infix_nil]
    simp [hsep]
  | cons c t ih =>
    simp only [findSplit]
    split
    · next hpre =>
      rw [List.isPrefixOf_iff_prefix] at hpre
      simp only [reduceCtorEq, false_iff, not_not]
      exact hpre.isInfix
    · next hpre =>
      rw [List.isPrefixOf_iff_prefix] at hpre
      rw [List.infix_cons_iff]
      cases hf : findSplit sep t with
      | none =>
        simp only [Option.map_none', true_iff]
        rw [hf] at ih
        simp only [true_iff] at ih
        tauto
      | some p =>
        simp only [Option.map_some', reduceCtorEq, false_iff]
        rw [hf] at ih
        simp only [reduceCtorEq, false_iff, not_not] at ih
        tauto

theorem findSplit_length {sep : LC} (hsep : sep ≠ []) {s b a : LC}
    (h : findSplit sep s = some (b, a)) : a.length < s.length := by
  have hs := findSplit_sound h
  rw [hs]
  have : 0 < sep.length := List.length_pos.mpr hsep
  simp only [List.append_assoc, List.length_append]
  omega

theorem findSplit_self_append {sep : LC} (hsep : sep ≠ []) (t : LC) :
    findSplit sep (sep ++ t) = some ([], t) := by
  cases hs : sep with
  | nil => exact absurd hs hsep
  | cons c r =>
    rw [← hs]
    have hne : sep ++ t ≠ [] := by simp [hs]
    cases hst : sep ++ t with
    | nil => exact absurd hst hne
    | cons x xs =>
      simp only [findSplit]
      rw [if_pos]
      · rw [← hst, List.drop_left]
      · rw [List.isPrefixOf_iff_prefix, ← hst]
        exact List.prefix_append sep t

theorem splitFuel_fuel {sep : LC} (hsep : sep ≠ []) :
    ∀ f1 f2 s, s.length < f1 → s.length < f2 → splitFuel sep f1 s = splitFuel sep f2 s := by
  intro f1
  induction f1 with
  | zero => intro f2 s h1 _; omega
  | succ n ih =>
    intro f2 s h1 h2
    cases f2 with
    | zero => omega
    | succ m =>
      simp only [splitFuel]
      cases hf : findSplit sep s with
      | none => rfl
      | some p =>
        obtain ⟨b, a⟩ := p
        have hl := findSplit_length hsep hf
        simp only []
        exact congrArg (b :: ·) (ih m a (by omega) (by omega))

theorem splitOnSub_unfold {sep : LC} (hsep : sep ≠ []) (s : LC) :
    splitOnSub sep s =
      match findSplit sep s with
      | none => [s]
      | some (b, a) => b :: splitOnSub sep a := by
  show splitFuel sep (s.length + 1) s = _
  cases hf : findSplit sep s with
  | none => simp [splitFuel, hf]
  | some p =>
    obtain ⟨b, a⟩ := p
    have hl := findSplit_length hsep hf
    simp only [splitFuel, hf]
    exact congrArg (b :: ·) (splitFuel_fuel hsep _ _ a (by omega) (by omega))

theorem replFuel_fuel {pat : LC} (hpat : pat ≠ []) :
    ∀ f1 f2 s, s.length < f1 → s.length < f2 → replFuel pat f1 s = replFuel pat f2 s := by
  intro f1
  induction f1 with
  | zero => intro f2 s h1 _; omega
  | succ n ih =>
    intro f2 s h1 h2
    cases f2 with
    | zero => omega
    | succ m =>
      simp only [replFuel]
      cases hf : findSplit pat s with
      | none => rfl
      | some p =>
        obtain ⟨b, a⟩ := p
        have hl := findSplit_length hpat hf
        simp only []
        exact congrArg (b ++ ·) (ih m a (by omega) (by omega))

theorem replaceAll_unfold {pat : LC} (hpat : pat ≠ []) (s : LC) :
    replaceAll pat s =
      match findSplit pat s with
      | none => s
      | some (b, a) => b ++ replaceAll pat a := by
  show replFuel pat (s.length + 1) s = _
  cases hf : findSplit pat s with
  | none => simp [replFuel, hf]
  | some p =>
    obtain ⟨b, a⟩ := p
    have hl := findSplit_length hpat hf
    simp only [replFuel, hf]
    exact congrArg (b ++ ·) (replFuel_fuel hpat _ _ a (by omega) (by omega))

theorem findSplit_append {sep : LC} :
    ∀ {xs ys : LC}, (∀ u v, u ++ v = xs → v ≠ [] → ¬ sep <+: (v ++ ys)) →
      findSplit sep (xs ++ ys) = (findSplit sep ys).map (fun p => (xs ++ p.1, p.2)) := by
  intro xs
  induction xs with
  | nil =>
    intro ys _
    cases hf : findSplit sep ys <;> simp [hf]
  | cons c t ih =>
    intro ys h
    have hnp : ¬ sep <+: (c :: t) ++ ys := h [] (c :: t) rfl (by simp)
    rw [List.cons_append]
    simp only [findSplit]
    rw [if_neg (by rw [List.isPrefixOf_iff_prefix]; simpa using hnp)]
    rw [ih (fun u v huv hv => h (c :: u) v (by rw [← huv]; rfl) hv)]
    cases findSplit sep ys <;> simp

theorem prefix_head_mem {v w : LC} {c : Char} (h : v <+: c :: w) (hv : v ≠ []) : c ∈ v := by
  obtain ⟨r, hr⟩ := h
  cases v with
  | nil => exact absurd rfl hv
  | cons a v' =>
    have ha : a = c := by
      have := congrArg (List.head? ·) hr
      simpa using this
    simp [ha]

theorem last_mem_of_suffix {v z : LC} {c : Char} (h : v <:+ z ++ [c]) (hv : v ≠ []) : c ∈ v := by
  have h' : v.reverse <+: (z ++ [c]).reverse := List.reverse_prefix.mpr h
  rw [List.reverse_append, List.reverse_singleton] at h'
  have : c ∈ v.reverse :=
    prefix_head_mem h' (by simpa using hv)
  simpa using this

theorem infix_append_decomp {sep xs ys : LC} (h : sep <:+: xs ++ ys) :
    sep <:+: xs ∨ sep <:+: ys ∨
      ∃ v w, v ≠ [] ∧ w ≠ [] ∧ v <:+ xs ∧ w <+: ys ∧ sep = v ++ w := by
  obtain ⟨s, t, hst⟩ := h
  rw [List.append_assoc] at hst
  rcases List.append_eq_append_iff.mp hst with ⟨a', ha1, ha2⟩ | ⟨c', _, hc2⟩
  · rcases List.append_eq_append_iff.mp ha2 with ⟨u, hu1, hu2⟩ | ⟨w, hw1, hw2⟩
    · left
      exact ⟨s, u, by rw [List.append_assoc, ha1, hu1]⟩
    · by_cases hvnil : a' = []
      · subst hvnil
        right; left
        have hsw : sep = w := by simpa using hw1
        exact ⟨[], t, by rw [List.nil_append, hsw, ← hw2]⟩
      · by_cases hwnil : w = []
        · subst hwnil
          left
          have hsa : sep = a' := by simpa using hw1
          exact ⟨s, [], by rw [List.append_nil, hsa, ← ha1]⟩
        · right; right
          exact ⟨a', w, hvnil, hwnil, ⟨s, ha1.symm⟩, ⟨t, hw2.symm⟩, hw1⟩
  · right; left
    exact ⟨c', t, by rw [List.append_assoc, ← hc2]⟩

theorem not_infix_append {sep xs ys : LC}
    (h1 : ¬ sep <:+: xs) (h2 : ¬ sep <:+: ys)
    (h3 : ∀ v w, v ≠ [] → w ≠ [] → v <:+ xs → w <+: ys → sep ≠ v ++ w) :
    ¬ sep <:+: xs ++ ys := by
  intro h
  rcases infix_append_decomp h with h | h | ⟨v, w, hv, hw, hvxs, hwys, hsep⟩
  · exact h1 h
  · exact h2 h
  · exact h3 v w hv hw hvxs hwys hsep

theorem not_infix_of_mem_not_mem {sep l : LC} {c : Char} (hc : c ∈ sep) (hl : c ∉ l) :
    ¬ sep <:+: l :=
  fun h => hl (h.subset hc)

theorem straddle_right_head {sep ys : LC} {c : Char} (hc : c ∉ sep) :
    ∀ v w, w ≠ [] → w <+: c :: ys → sep ≠ v ++ w := by
  intro v w hw hpre hsep
  have : c ∈ w := prefix_head_mem hpre hw
  exact hc (by rw [hsep]; exact List.mem_append.mpr (Or.inr this))

theorem straddle_left_last {sep xs : LC} {c : Char} (hc : c ∉ sep) :
    ∀ v w, v ≠ [] → v <:+ xs ++ [c] → sep ≠ v ++ w := by
  intro v w hv hsuf hsep
  have : c ∈ v := last_mem_of_suffix hsuf hv
  exact hc (by rw [hsep]; exact List.mem_append.mpr (Or.inl this))

theorem not_infix_cons {sep z : LC} {c : Char} (hsep : sep ≠ []) (hc : c ∉ sep)
    (hz : ¬ sep <:+: z) : ¬ sep <:+: c :: z := by
  rw [List.infix_cons_iff]
  rintro (hpre | hinf)
  · exact hc (prefix_head_mem hpre hsep)
  · exact hz hinf

theorem hasSub_iff {pat s : LC} (hpat : pat ≠ []) : hasSub pat s = true ↔ pat <:+: s := by
  unfold hasSub
  rw [Option.isSome_iff_ne_none, ne_eq, findSplit_none_iff hpat, not_not]

theorem fileMarker_ne : fileMarker ≠ [] := by decide

theorem sep3_ne : sep3 ≠ [] := by decide

theorem endMarker_ne : endMarker ≠ [] := by decide

/-! ## Claim C5: total, discarding, skipping parser -/

theorem parseParts_all_skip :
    ∀ (parts : List LC), (∀ part ∈ parts, findSplit sep3 part = none) →
      ∀ acc, parseParts parts acc = acc := by
  intro parts
  induction parts with
  | nil => intro _ acc; rfl
  | cons p rest ih =>
    intro h acc
    have hp := h p (by simp)
    simp only [parseParts, hp]
    exact ih (fun q hq => h q (by simp [hq])) acc

/-- Claim C5: the Artifact Parser is total by construction (a pure function
of its input); the text before the first start marker is discarded (parsing
`t` is the same as parsing `t` cut at the first marker occurrence, and input
with no marker at all parses to the empty mapping); a segment whose start
marker has no `===` separator is skipped; and input with no well-formed
segment yields the empty mapping. -/
theorem claim_C5 :
    (∀ t b a, findSplit fileMarker t = some (b, a) →
       parseFiles t = parseFiles (fileMarker ++ a)) ∧
    (∀ t, findSplit fileMarker t = none → parseFiles t = []) ∧
    (∀ part rest acc, findSplit sep3 part = none →
       parseParts (part :: rest) acc = parseParts rest acc) ∧
    (∀ t, (∀ part ∈ (splitOnSub fileMarker t).tail, findSplit sep3 part = none) →
       parseFiles t = []) := by
  refine ⟨?_, ?_, ?_, ?_⟩
  · intro t b a h
    unfold parseFiles
    rw [splitOnSub_unfold fileMarker_ne t, h,
        splitOnSub_unfold fileMarker_ne (fileMarker ++ a),
        findSplit_self_append fileMarker_ne a]
  · intro t h
    unfold parseFiles
    rw [splitOnSub_unfold fileMarker_ne t, h]
    rfl
  · intro part rest acc h
    simp only [parseParts, h]
  · intro t h
    unfold parseFiles
    cases hsp : splitOnSub fileMarker t with
    | nil => rfl
    | cons p parts =>
      have : ∀ part ∈ parts, findSplit sep3 part = none := by
        intro q hq
        exact h q (by rw [hsp]; exact hq)
      exact parseParts_all_skip parts this []

/-- Witness for C5 at concrete inputs: leading junk is discarded, markerless
input and separatorless segments yield the empty mapping. -/
theorem claim_C5_witness :
    parseFiles ("junk===FILE: a===\nbody\n===END FILE===\n".data) =
      parseFiles (fileMarker ++ " a===\nbody\n===END FILE===\n".data) ∧
    parseFiles ("no markers at all".data) = [] ∧
    parseParts ["no separator in this part\n".data] [] =
      parseParts [] [] ∧
    parseFiles ("===FILE: no separator here\n".data) = [] := by
  refine ⟨claim_C5.1 _ "junk".data _ (by decide), claim_C5.2.1 _ (by decide),
    ?_, claim_C5.2.2.2 _ (by decide)⟩
  exact claim_C5.2.2.1 _ [] [] (by decide)

/-! ## Claims C3 and C10: the Approval Gate -/

theorem isApprovedMsg_of_keyword {msg kw : LC} (hmem : kw ∈ approvalKeywords)
    (h : kw <:+: pyLower msg) : isApprovedMsg msg = true := by
  have hall : ∀ k ∈ approvalKeywords, k ≠ [] := by decide
  have hne : kw ≠ [] := hall kw hmem
  unfold isApprovedMsg
  rw [List.any_eq_true]
  exact ⟨kw, hmem, (hasSub_iff hne).mpr h⟩

/-- Claim C3: a submit whose user message contains "looks good"
(case-insensitively) is approved and finalizes a non-null requirements text,
and every submit — approved or not — grows the conversation by exactly the
user message followed by one assistant reply. -/
theorem claim_C3 :
    (∀ genS genC msg st, "looks good".data <:+: pyLower msg →
       (manager_agent genS genC msg st.conversation_history).2.2 = true ∧
       ((chat_with_manager genS genC msg st).2.1).requirements =
         some (approvedPre ++ genS.content ++ approvedPost)) ∧
    (∀ genS genC msg hist,
       (manager_agent genS genC msg hist).2.1 =
         hist ++ [⟨"user".data, msg⟩,
                  ⟨"assistant".data, (manager_agent genS genC msg hist).1⟩]) := by
  constructor
  · intro genS genC msg st h
    have happ : isApprovedMsg msg = true :=
      isApprovedMsg_of_keyword (by decide) h
    constructor
    · simp [manager_agent, happ]
    · simp [chat_with_manager, manager_agent, happ]
  · intro genS genC msg hist
    by_cases happ : isApprovedMsg msg = true
    · simp [manager_agent, happ]
    · simp only [Bool.not_eq_true] at happ
      simp [manager_agent, happ]

/-- Witness for C3 at a concrete approving message and a concrete
non-approving continuation. -/
theorem claim_C3_witness :
    (manager_agent ⟨"the req doc".data, true⟩ ⟨"next question".data, true⟩
        "Looks GOOD, ship it".data []).2.2 = true ∧
    ((chat_with_manager ⟨"the req doc".data, true⟩ ⟨"next question".data, true⟩
        "Looks GOOD, ship it".data ⟨[], none⟩).2.1).requirements =
      some (approvedPre ++ "the req doc".data ++ approvedPost) ∧
    (manager_agent ⟨"the req doc".data, true⟩ ⟨"next question".data, true⟩
        "tell me more".data []).2.1 =
      [⟨"user".data, "tell me more".data⟩,
       ⟨"assistant".data,
        (manager_agent ⟨"the req doc".data, true⟩ ⟨"next question".data, true⟩
          "tell me more".data []).1⟩] := by
  refine ⟨(claim_C3.1 _ _ _ ⟨[], none⟩ (by decide)).1,
          (claim_C3.1 _ _ _ ⟨[], none⟩ (by decide)).2, ?_⟩
  simpa using claim_C3.2 ⟨"the req doc".data, true⟩ ⟨"next question".data, true⟩
    "tell me more".data []

/-- Claim C10: the approval test is a plain substring match on the
lowercased message — any fixed keyword occurring anywhere in the lowercase
form (even inside a longer word, as "correct" inside "incorrect") approves
the requirements and finalizes them. -/
theorem claim_C10 :
    ∀ genS genC msg st kw, kw ∈ approvalKeywords → kw <:+: pyLower msg →
      isApprovedMsg msg = true ∧
      (manager_agent genS genC msg st.conversation_history).2.2 = true ∧
      (chat_with_manager genS genC msg st).2.2 = "approved".data ∧
      ((chat_with_manager genS genC msg st).2.1).requirements =
        some (chat_with_manager genS genC msg st).1 := by
  intro genS genC msg st kw hmem h
  have happ : isApprovedMsg msg = true := isApprovedMsg_of_keyword hmem h
  refine ⟨happ, by simp [manager_agent, happ], ?_, ?_⟩
  · simp [chat_with_manager, manager_agent, happ]
  · simp [chat_with_manager, manager_agent, happ]

/-- Witness for C10: the message "That is incorrect, please fix it" contains
no approving sentence, yet the keyword "correct" occurs inside "incorrect"
and the gate approves. -/
theorem claim_C10_witness :
    isApprovedMsg "That is incorrect, please fix it".data = true ∧
    (chat_with_manager ⟨"doc".data, true⟩ ⟨"q".data, true⟩
        "That is incorrect, please fix it".data ⟨[], none⟩).2.2 = "approved".data := by
  refine ⟨(claim_C10 ⟨"doc".data, true⟩ ⟨"q".data, true⟩ _ ⟨[], none⟩ "correct".data
      (by decide) (by decide)).1,
    (claim_C10 ⟨"doc".data, true⟩ ⟨"q".data, true⟩ _ ⟨[], none⟩ "correct".data
      (by decide) (by decide)).2.2.1⟩

/-! ## Claim C1: behaviour of a stage on generation failure -/

/-- A failed generation result, as `call_claude` returns it. -/
def planFailGen : GenResult := ⟨"Error: boom".data, false⟩

/-- A plan parser that never succeeds (irrelevant on the failure path). -/
def jparseNone : LC → Option PlanJson := fun _ => none

/-- Claim C1 counterexample: at a concrete initial state and a generation
result with `success = false`, the planner stage neither leaves the stage
field unchanged nor appends an entry to `errors` — refuting the claim that
the stage field is unchanged and exactly one error is appended. -/
theorem claim_C1_counterexample :
    ¬ ((planner_node jparseNone planFailGen (initState [] [])).current_stage =
         (initState [] []).current_stage ∧
       ∃ e, (planner_node jparseNone planFailGen (initState [] [])).errors =
         (initState [] []).errors ++ [e]) := by
  rintro ⟨h1, -⟩
  revert h1
  decide

/-- Claim C1 amended: when the generation collaborator reports
`success = false`, the stage appends no entry to `errors` (the failure is
silent), leaves the artifact fields unchanged, and still sets the stage
field to its completion value, advancing the pipeline. -/
theorem claim_C1_amended :
    (∀ jp gen s, gen.success = false →
       (planner_node jp gen s).current_stage = "planning_complete".data ∧
       (planner_node jp gen s).errors = s.errors ∧
       (planner_node jp gen s).development_plan = s.development_plan) ∧
    (∀ gc gt s s', gc.success = false → gt.success = false →
       developer_node gc gt s = some s' →
       s'.current_stage = "code_written".data ∧ s'.errors = s.errors ∧
       s'.code_files = s.code_files ∧ s'.unit_tests = s.unit_tests) ∧
    (∀ g s s', g.success = false → tester_node g s = some s' →
       s'.current_stage = "tests_written".data ∧ s'.errors = s.errors ∧
       s'.e2e_tests = s.e2e_tests) := by
  refine ⟨?_, ?_, ?_⟩
  · intro jp gen s h
    simp [planner_node, h]
  · intro gc gt s s' hgc hgt h
    cases hp : s.development_plan with
    | none => simp [developer_node, hp] at h
    | some plan =>
      cases hpn : plan.project_name with
      | none => simp [developer_node, hp, hpn] at h
      | some pn =>
        simp only [developer_node, hp, hpn, hgc, hgt, Bool.false_eq_true, if_false,
          Option.some.injEq] at h
        subst h
        simp
  · intro g s s' hg h
    cases hp : s.development_plan with
    | none => simp [tester_node, hp] at h
    | some plan =>
      cases hpn : plan.project_name with
      | none => simp [tester_node, hp, hpn] at h
      | some pn =>
        simp only [tester_node, hp, hpn, hg, Bool.false_eq_true, if_false,
          Option.some.injEq] at h
        subst h
        simp

/-- A state that already carries a parsed plan (as the developer and tester
stages require). -/
def stPlanned : DState :=
  { initState [] [] with development_plan := some ⟨some "todo".data⟩ }

/-- The developer stage output at `stPlanned` when both generation calls fail. -/
def devFailedOut : DState :=
  { stPlanned with current_stage := "code_written".data, iteration_count := 1 }

/-- Witness for the amended C1 at concrete failing generations. -/
theorem claim_C1_witness :
    (planner_node jparseNone planFailGen (initState [] [])).current_stage =
      "planning_complete".data ∧
    devFailedOut.current_stage = "code_written".data ∧
    devFailedOut.errors = stPlanned.errors := by
  refine ⟨(claim_C1_amended.1 jparseNone planFailGen (initState [] []) rfl).1, ?_, ?_⟩
  · exact (claim_C1_amended.2.1 planFailGen planFailGen stPlanned devFailedOut rfl rfl
      (by decide)).1
  · exact (claim_C1_amended.2.1 planFailGen planFailGen stPlanned devFailedOut rfl rfl
      (by decide)).2.1

/-! ## Claim C6: read-then-write with revision token -/

/-- Claim C6: every `commit_file` call that proceeds (a token is present)
issues exactly one metadata read followed by one write on the same path; a
file that exists (read status 200 with a non-empty revision token) has that
token included in the write payload, and a file that does not exist (read
status other than 200) gets no token. -/
theorem claim_C6 :
    ∀ tok g ps path content msg br,
      (commit_file (some tok) g ps path content msg br).2 =
        [ApiCall.getContents path,
         ApiCall.putContents path (commitPayloadOf g content msg br)] ∧
      (∀ s, g.status = 200 → g.sha = some s → s ≠ [] →
        (commitPayloadOf g content msg br).sha = some s) ∧
      (g.status ≠ 200 → (commitPayloadOf g content msg br).sha = none) := by
  intro tok g ps path content msg br
  refine ⟨rfl, ?_, ?_⟩
  · intro s h200 hsha hne
    simp [commitPayloadOf, h200, hsha, truthyStr, hne]
  · intro h
    simp [commitPayloadOf, h, truthyStr]

/-- Witness for C6: an existing file (200, sha "abc123") gets its token in
the payload; an absent file (404) gets none; the trace is read-then-write. -/
theorem claim_C6_witness :
    (commit_file (some "tok".data) ⟨200, some "abc123".data⟩ 200
        "src/App.jsx".data "code".data "msg".data "main".data).2 =
      [ApiCall.getContents "src/App.jsx".data,
       ApiCall.putContents "src/App.jsx".data
         (commitPayloadOf ⟨200, some "abc123".data⟩ "code".data "msg".data "main".data)] ∧
    (commitPayloadOf ⟨200, some "abc123".data⟩ "code".data "msg".data "main".data).sha =
      some "abc123".data ∧
    (commitPayloadOf ⟨404, none⟩ "code".data "msg".data "main".data).sha = none := by
  refine ⟨(claim_C6 "tok".data ⟨200, some "abc123".data⟩ 200 "src/App.jsx".data
      "code".data "msg".data "main".data).1,
    (claim_C6 "tok".data ⟨200, some "abc123".data⟩ 200 "src/App.jsx".data
      "code".data "msg".data "main".data).2.1 "abc123".data rfl rfl (by decide),
    (claim_C6 "tok".data ⟨404, none⟩ 200 "src/App.jsx".data
      "code".data "msg".data "main".data).2.2 (by decide)⟩

/-! ## Claim C7: local-only sentinel disables Repository Sync -/

/-- Claim C7, evaluated against the faithful model: the sentinel and no-op
branches behave exactly as claimed when they are reached, but the
project-name lookup runs first and raises on the `None` plan that every
run's first GitHub-agent call carries, so the source aborts the run instead
of recording `local-only` there.  Conjuncts: (1) at the documented initial
state (plan `None`, no repository) the call raises before any sentinel
logic, for every creation result; (2) on a state whose plan is a parsed
dict, a failed creation records the local-only sentinel and issues no
commit calls; (3) on a state whose plan is a parsed dict and whose
repository carries the sentinel, the call is a strict no-op issuing no
external writes. -/
theorem claim_C7 :
    (∀ cr req hist, github_agent_node cr (initState req hist) = none) ∧
    (∀ cr s pl, s.development_plan = some pl → cr.success = false →
       s.github_repo = none →
       github_agent_node cr s =
         some ({ s with github_repo :=
           (some ⟨sanitizeName (pl.project_name.getD "react-app".data), localOnly,
            none, none⟩) }, [])) ∧
    (∀ cr s r pl, s.development_plan = some pl → s.github_repo = some r →
       r.url = localOnly → github_agent_node cr s = some (s, [])) := by
  refine ⟨?_, ?_, ?_⟩
  · intro cr req hist
    simp [github_agent_node, projectNameOf, initState]
  · intro cr s pl hp hcr hrepo
    simp [github_agent_node, projectNameOf, hp, hrepo, hcr]
  · intro cr s r pl hp hrepo hurl
    simp [github_agent_node, projectNameOf, hp, hrepo, hurl]

/-- Witness for C7: the concrete initial state makes the call raise; a
concrete planned state with failed creation gets the sentinel recorded; a
concrete sentinel-carrying state makes a milestone call a strict no-op. -/
theorem claim_C7_witness :
    github_agent_node ⟨false, [], [], []⟩ (initState [] []) = none ∧
    github_agent_node ⟨false, [], [], []⟩ stPlanned =
      some ({ stPlanned with github_repo :=
        (some ⟨sanitizeName "todo".data, localOnly, none, none⟩) }, []) ∧
    github_agent_node ⟨true, "u".data, "o".data, "n".data⟩
        { stPlanned with github_repo := some ⟨"todo".data, localOnly, none, none⟩,
                         current_stage := "code_written".data } =
      some ({ stPlanned with github_repo := some ⟨"todo".data, localOnly, none, none⟩,
                             current_stage := "code_written".data }, []) := by
  refine ⟨claim_C7.1 ⟨false, [], [], []⟩ [] [], ?_, ?_⟩
  · exact claim_C7.2.1 ⟨false, [], [], []⟩ stPlanned ⟨some "todo".data⟩ rfl rfl rfl
  · exact claim_C7.2.2 ⟨true, "u".data, "o".data, "n".data⟩ _
      ⟨"todo".data, localOnly, none, none⟩ ⟨some "todo".data⟩ rfl rfl rfl

/-! ## Claim C8: the unit-test aggregator -/

/-- Claim C8: a stdout that parses as a Vitest JSON report with totals 5/3/2
yields the summary 5/3/2 (details passed through); unparsable output with
three pass glyphs and one fail glyph in the combined streams yields 4/3/1
with empty details. -/
theorem claim_C8 :
    (∀ stdout stderr dt,
       run_unit_tests (.ok (stdout, stderr, some ⟨some 5, some 3, some 2, dt⟩)) =
         ⟨true, none, 5, 3, 2, dt⟩) ∧
    (∀ stdout stderr, countChar '✓' (stdout ++ stderr) = 3 →
       countChar '✗' (stdout ++ stderr) = 1 →
       run_unit_tests (.ok (stdout, stderr, none)) = ⟨true, none, 4, 3, 1, []⟩) := by
  constructor
  · intro stdout stderr dt
    rfl
  · intro stdout stderr h3 h1
    simp [run_unit_tests, h3, h1]

/-- Witness for C8 at a concrete parsed report and a concrete glyph-count
fallback input. -/
theorem claim_C8_witness :
    run_unit_tests (.ok ("ignored".data, "".data, some ⟨some 5, some 3, some 2, []⟩)) =
      ⟨true, none, 5, 3, 2, []⟩ ∧
    run_unit_tests (.ok ("✓ a\n✓ b\n✓ c\n".data, "✗ d failed\n".data, none)) =
      ⟨true, none, 4, 3, 1, []⟩ := by
  exact ⟨claim_C8.1 "ignored".data "".data [],
         claim_C8.2 "✓ a\n✓ b\n✓ c\n".data "✗ d failed\n".data
           (by decide) (by decide)⟩

/-! ## Claim C9: dev-server lifetime in run_e2e_tests -/

/-- Claim C9 evaluated at the failing input: when the Playwright invocation
raises (e.g. `TimeoutExpired` after its 120-second bound), `run_e2e_tests`
returns from the exception handler with the spawned dev server never
terminated — the terminate event is absent from the trace — whereas the
normal return path does terminate it.  This contradicts the claim that the
process is terminated on every exit path. -/
theorem claim_C9 :
    (run_e2e_tests none (.error "TimeoutExpired: npx playwright test".data)).2 =
      [SrvEvent.spawnServer] ∧
    SrvEvent.terminateServer ∉
      (run_e2e_tests none (.error "TimeoutExpired: npx playwright test".data)).2 ∧
    (run_e2e_tests none (.ok (some ⟨[]⟩))).2 =
      [SrvEvent.spawnServer, SrvEvent.terminateServer] := by
  refine ⟨rfl, ?_, rfl⟩
  decide

/-! ## Claim C2: the stage sequencer -/

theorem github_node_none {s : DState} (cr : CreateRepoRes)
    (h : s.development_plan = none) : github_agent_node cr s = none := by
  simp [github_agent_node, projectNameOf, h]

theorem github_node_state_of_some {s : DState} {r : GhRepo} {pl : PlanJson}
    (cr : CreateRepoRes) (h : s.github_repo = some r)
    (hp : s.development_plan = some pl) :
    (github_agent_node cr s).map Prod.fst = some s := by
  simp only [github_agent_node, projectNameOf, hp, h]
  by_cases hu : r.url = localOnly
  · simp [hu]
  · simp only [hu, if_false]
    split_ifs <;> rfl

theorem github_node_fields {s : DState} {pl : PlanJson} (cr : CreateRepoRes)
    (hp : s.development_plan = some pl) :
    ∃ s1, (github_agent_node cr s).map Prod.fst = some s1 ∧
      s1.current_stage = s.current_stage ∧
      s1.development_plan = s.development_plan ∧
      s1.github_repo.isSome = true := by
  cases hg : s.github_repo with
  | none =>
    cases hcs : cr.success
    · refine ⟨{ s with github_repo :=
          (some ⟨sanitizeName (pl.project_name.getD "react-app".data), localOnly,
           none, none⟩) }, ?_, rfl, rfl, rfl⟩
      simp [github_agent_node, projectNameOf, hp, hg, hcs]
    · refine ⟨{ s with github_repo :=
          (some ⟨cr.name, cr.repo_url, some cr.owner, some "main".data⟩) }, ?_, rfl, rfl, rfl⟩
      simp [github_agent_node, projectNameOf, hp, hg, hcs]
  | some r =>
    exact ⟨s, github_node_state_of_some cr hg hp, rfl, rfl, by simp [hg]⟩

theorem planner_node_fields (jp : LC → Option PlanJson) (g : GenResult) (s : DState) :
    (planner_node jp g s).current_stage = "planning_complete".data ∧
    (planner_node jp g s).github_repo = s.github_repo := by
  unfold planner_node
  cases hgs : g.success
  · simp
  · cases hj : jp g.content with
    | none => simp [hj]
    | some pl => cases hpn : pl.project_name <;> simp [hj, hpn]

theorem planner_node_plan {jp : LC → Option PlanJson} {g : GenResult} {pl : PlanJson}
    (s : DState) (hg : g.success = true) (hj : jp g.content = some pl) :
    (planner_node jp g s).development_plan = some pl := by
  unfold planner_node
  cases hpn : pl.project_name <;> simp [hg, hj, hpn]

theorem developer_node_some (gc gt : GenResult) {s : DState} {pl : PlanJson} {pn : LC}
    (hp : s.development_plan = some pl) (hpn : pl.project_name = some pn) :
    ∃ s', developer_node gc gt s = some s' ∧
      s'.current_stage = "code_written".data ∧
      s'.development_plan = some pl ∧ s'.github_repo = s.github_repo := by
  simp only [developer_node, hp, hpn]
  refine ⟨_, rfl, rfl, ?_, ?_⟩
  · cases hgc : gc.success <;> cases hgt : gt.success <;> simp [hgc, hgt, hp]
  · cases hgc : gc.success <;> cases hgt : gt.success <;> simp [hgc, hgt]

theorem tester_node_some (g : GenResult) {s : DState} {pl : PlanJson} {pn : LC}
    (hp : s.development_plan = some pl) (hpn : pl.project_name = some pn) :
    ∃ s', tester_node g s = some s' ∧
      s'.current_stage = "tests_written".data ∧
      s'.development_plan = some pl ∧ s'.github_repo = s.github_repo := by
  simp only [tester_node, hp, hpn]
  refine ⟨_, rfl, rfl, ?_, ?_⟩
  · cases hgs : g.success <;> simp [hgs, hp]
  · cases hgs : g.success <;> simp [hgs]

theorem deployer_node_some (dep : DeployResult) {s : DState} {pl : PlanJson} {pn : LC}
    (hp : s.development_plan = some pl) (hpn : pl.project_name = some pn) :
    ∃ s', deployer_node dep s = some s' ∧
      s'.current_stage = "deployment_complete".data ∧
      s'.development_plan = some pl ∧ s'.github_repo = s.github_repo := by
  simp only [deployer_node, hp, hpn]
  refine ⟨_, rfl, rfl, ?_, ?_⟩
  · cases hds : dep.success <;> simp [hds, hp]
  · cases hds : dep.success <;> simp [hds]

/-- A fully successful collaborator environment for a concrete run. -/
def envOk : Env :=
  { createRes := ⟨true, "https://github.com/u/todo".data, "u".data, "todo".data⟩
    planGen := ⟨"PLAN".data, true⟩
    jparse := fun _ => some ⟨some "todo app".data⟩
    codeGen := ⟨"".data, true⟩
    unitGen := ⟨"".data, true⟩
    e2eGen := ⟨"".data, true⟩
    deploy := ⟨true, "https://todo.vercel.app".data, []⟩ }

/-- The nine stage names the claim asserts the stage field moves through. -/
def specStages : List LC :=
  ["init".data, "repoInit".data, "planned".data, "coded".data, "codeCommitted".data,
   "tested".data, "testsCommitted".data, "deployed".data, "deployCommitted".data]

/-- Claim C2 counterexample: from the documented initial state, even with
every collaborator succeeding, the run raises at its very first node (the
project-name lookup on the `None` plan), so there is not a single stage
completion, let alone 8, and the stage field never reaches any terminal
value; and from a start state that does survive the first node (its plan
already parsed), the completed run's stage field ends at the code's value
`deployment_complete` — not `deployCommitted` — takes only 5 distinct
values over the run (the init and commit nodes never change it), and never
assumes any of the 9 claimed stage names. -/
theorem claim_C2_counterexample :
    runNodes (pipelineNodes envOk) (initState [] []) = none ∧
    stageTrace (pipelineNodes envOk) (initState [] []) = [] ∧
    (runNodes (pipelineNodes envOk) stPlanned).map DState.current_stage =
      some "deployment_complete".data ∧
    "deployCommitted".data ∉ stageTrace (pipelineNodes envOk) stPlanned ∧
    (stageTrace (pipelineNodes envOk) stPlanned).dedup.length = 5 ∧
    ∀ st ∈ stageTrace (pipelineNodes envOk) stPlanned, st ∉ specStages := by
  decide

/-- Claim C2 amended: (1) from the documented initial state — whose
`development_plan` is `None` — every run raises at the first workflow node
before any stage completes, so the stage field never advances at all;
(2) from a start state whose plan is already a parsed dict (so the first
node's project-name lookup survives) and whose repository is unset, a run
with successful, parseable plan generation completes all 8 nodes: the stage
field moves forward through `initial → planning_complete → code_written →
tests_written → deployment_complete` — the init and commit nodes leaving it
unchanged — ends at the terminal value `deployment_complete`, and never
returns to an earlier stage value (its rank is monotone along the run). -/
theorem claim_C2_amended :
    (∀ env req hist,
       runNodes (pipelineNodes env) (initState req hist) = none ∧
       stageTrace (pipelineNodes env) (initState req hist) = []) ∧
    (∀ env s0 pl0 pl pn, s0.current_stage = "initial".data → s0.github_repo = none →
       s0.development_plan = some pl0 →
       env.planGen.success = true → env.jparse env.planGen.content = some pl →
       pl.project_name = some pn →
       stageTrace (pipelineNodes env) s0 =
         ["initial".data, "planning_complete".data, "code_written".data,
          "code_written".data, "tests_written".data, "tests_written".data,
          "deployment_complete".data, "deployment_complete".data] ∧
       (runNodes (pipelineNodes env) s0).map DState.current_stage =
         some "deployment_complete".data ∧
       List.Chain' (fun a b => stageRank a ≤ stageRank b)
         (s0.current_stage :: stageTrace (pipelineNodes env) s0)) := by
  constructor
  · intro env req hist
    have h0 : github_agent_node env.createRes (initState req hist) = none :=
      github_node_none env.createRes rfl
    constructor
    · simp [pipelineNodes, runNodes, h0]
    · simp [pipelineNodes, stageTrace, h0]
  · intro env s0 pl0 pl pn hcs hgr hp0 hpg hjp hpn
    obtain ⟨s1, h1e, h1s, h1p, h1r⟩ := github_node_fields env.createRes hp0
    obtain ⟨h2s, h2r⟩ := planner_node_fields env.jparse env.planGen s1
    have h2p := planner_node_plan s1 hpg hjp
    obtain ⟨s3, h3e, h3s, h3p, h3r⟩ := developer_node_some env.codeGen env.unitGen h2p hpn
    have h3rs : s3.github_repo.isSome = true := by rw [h3r, h2r]; exact h1r
    obtain ⟨r3, hr3⟩ := Option.isSome_iff_exists.mp h3rs
    have h4 : (github_agent_node env.createRes s3).map Prod.fst = some s3 :=
      github_node_state_of_some env.createRes hr3 h3p
    obtain ⟨s5, h5e, h5s, h5p, h5r⟩ := tester_node_some env.e2eGen h3p hpn
    have h5rs : s5.github_repo.isSome = true := by rw [h5r]; exact h3rs
    obtain ⟨r5, hr5⟩ := Option.isSome_iff_exists.mp h5rs
    have h6 : (github_agent_node env.createRes s5).map Prod.fst = some s5 :=
      github_node_state_of_some env.createRes hr5 h5p
    obtain ⟨s7, h7e, h7s, h7p, h7r⟩ := deployer_node_some env.deploy h5p hpn
    have h7rs : s7.github_repo.isSome = true := by rw [h7r]; exact h5rs
    obtain ⟨r7, hr7⟩ := Option.isSome_iff_exists.mp h7rs
    have h8 : (github_agent_node env.createRes s7).map Prod.fst = some s7 :=
      github_node_state_of_some env.createRes hr7 h7p
    have htrace : stageTrace (pipelineNodes env) s0 =
        ["initial".data, "planning_complete".data, "code_written".data,
         "code_written".data, "tests_written".data, "tests_written".data,
         "deployment_complete".data, "deployment_complete".data] := by
      simp only [pipelineNodes, stageTrace, h1e, h3e, h5e, h7e, h4, h6, h8]
      rw [h1s, hcs, h2s, h3s, h5s, h7s]
    refine ⟨htrace, ?_, ?_⟩
    · simp only [pipelineNodes, runNodes, h1e, h3e, h5e, h7e, h4, h6, h8]
      rw [Option.map_some', h7s]
    · rw [htrace, hcs]
      simp only [List.chain'_cons, List.chain'_singleton, and_true]
      decide

/-- Witness for the amended C2: the concrete successful environment still
crashes from the documented initial state, and completes with the 5-value
forward trace from a plan-carrying start state. -/
theorem claim_C2_witness :
    runNodes (pipelineNodes envOk) (initState "req".data []) = none ∧
    stageTrace (pipelineNodes envOk) stPlanned =
      ["initial".data, "planning_complete".data, "code_written".data,
       "code_written".data, "tests_written".data, "tests_written".data,
       "deployment_complete".data, "deployment_complete".data] :=
  ⟨(claim_C2_amended.1 envOk "req".data []).1,
   (claim_C2_amended.2 envOk stPlanned ⟨some "todo".data⟩ ⟨some "todo app".data⟩
     "todo app".data rfl rfl rfl rfl rfl rfl).1⟩

/-! ## Claim C4: round trip of serialization and parsing -/

/-- The text of one serialized entry after its start marker. -/
def segOf (e : LC × LC) : LC :=
  [' '] ++ e.1 ++ sep3 ++ ['\n'] ++ e.2 ++ ['\n'] ++ endMarker ++ ['\n']

theorem serializeFiles_cons (e : LC × LC) (m : List (LC × LC)) :
    serializeFiles (e :: m) = fileMarker ++ (segOf e ++ serializeFiles m) := by
  simp [serializeFiles, segOf]

/-- A path the delimiter convention can carry faithfully: no `=` character
(which would collide with the `===` separator closing the start token) and
no leading or trailing whitespace (which `str.strip` would drop). -/
def cleanPath (p : LC) : Prop := ('=' : Char) ∉ p ∧ strip p = p

/-- A body the delimiter convention can carry faithfully: no embedded start
or end marker and no leading or trailing whitespace. -/
def cleanBody (b : LC) : Prop :=
  findSplit fileMarker b = none ∧ findSplit endMarker b = none ∧ strip b = b

theorem trimLeft_cons_space {c : Char} (hc : pyIsSpace c = true) (s : LC) :
    trimLeft (c :: s) = trimLeft s := by
  simp [trimLeft, List.dropWhile_cons, hc]

theorem strip_cons_space {c : Char} (hc : pyIsSpace c = true) (s : LC) :
    strip (c :: s) = strip s := by
  simp [strip, trimLeft_cons_space hc]

theorem trimRight_append_space {c : Char} (hc : pyIsSpace c = true) (s : LC) :
    trimRight (s ++ [c]) = trimRight s := by
  simp [trimRight, List.dropWhile_cons, hc]

theorem strip_append_space {c : Char} (hc : pyIsSpace c = true) (s : LC) :
    strip (s ++ [c]) = strip s := by
  unfold strip trimLeft
  rw [List.dropWhile_append]
  split
  · next h =>
    rw [List.isEmpty_iff] at h
    simp [List.dropWhile_cons, hc, h]
  · exact trimRight_append_space hc _

theorem strip_nl_wrap {b : LC} (hb : strip b = b) :
    strip ('\n' :: (b ++ '\n' :: ['\n'])) = b := by
  have h1 : b ++ '\n' :: ['\n'] = (b ++ ['\n']) ++ ['\n'] := by simp
  rw [strip_cons_space (by decide) _, h1, strip_append_space (by decide) _,
      strip_append_space (by decide) _, hb]

theorem findSplit_shift {sep xs ys : LC}
    (h1 : ¬ sep <:+: xs)
    (h2 : ∀ v, v <:+ xs → v ≠ [] → ¬ v <+: sep) :
    findSplit sep (xs ++ ys) = (findSplit sep ys).map (fun p => (xs ++ p.1, p.2)) := by
  apply findSplit_append
  intro u v huv hv hpre
  have hvxs : v <:+ xs := ⟨u, huv⟩
  rcases Nat.le_total sep.length v.length with hl | hl
  · have hsv : sep <+: v :=
      List.prefix_of_prefix_length_le hpre (List.prefix_append v ys) hl
    exact h1 (List.infix_iff_prefix_suffix.mpr ⟨v, hsv, hvxs⟩)
  · have hvs : v <+: sep :=
      List.prefix_of_prefix_length_le (List.prefix_append v ys) hpre hl
    exact h2 v hvxs hv hvs

theorem segOf_concat_nl (e : LC × LC) :
    segOf e = ([' '] ++ e.1 ++ sep3 ++ ['\n'] ++ e.2 ++ ['\n'] ++ endMarker) ++ ['\n'] := by
  simp [segOf]

/-- A non-empty suffix of a serialized segment ends in a newline, so it is
never a prefix of a newline-free marker. -/
theorem suffix_seg_kill {e : LC × LC} {sep : LC} (hnl : ('\n' : Char) ∉ sep) :
    ∀ v, v <:+ segOf e → v ≠ [] → ¬ v <+: sep := by
  intro v hsuf hv hpre
  rw [segOf_concat_nl] at hsuf
  exact hnl (hpre.subset (last_mem_of_suffix hsuf hv))

theorem endMarker_not_infix_wrap {b : LC} (hb : findSplit endMarker b = none) :
    ¬ endMarker <:+: ('\n' :: b) ++ ['\n'] := by
  have hnb : ¬ endMarker <:+: b := (findSplit_none_iff endMarker_ne).mp hb
  apply not_infix_append
  · exact not_infix_cons endMarker_ne (by decide) hnb
  · decide
  · intro v w _ hw _ hwys
    exact straddle_right_head (by decide) v w hw hwys

theorem marker_not_infix_tail3 {b : LC} (hbm : findSplit fileMarker b = none) :
    ¬ fileMarker <:+: b ++ ('\n' :: (endMarker ++ ['\n'])) := by
  apply not_infix_append
  · exact (findSplit_none_iff fileMarker_ne).mp hbm
  · decide
  · intro v w _ hw _ hwys
    exact straddle_right_head (by decide) v w hw hwys

theorem marker_not_infix_tail2 {b : LC} (hbm : findSplit fileMarker b = none) :
    ¬ fileMarker <:+: (sep3 ++ ['\n']) ++ (b ++ ('\n' :: (endMarker ++ ['\n']))) := by
  apply not_infix_append
  · decide
  · exact marker_not_infix_tail3 hbm
  · intro v w hv _ hvxs _
    exact straddle_left_last (by decide) v w hv hvxs

theorem marker_not_infix_seg {p b : LC} (hp : cleanPath p) (hb : cleanBody b) :
    ¬ fileMarker <:+: segOf (p, b) := by
  have hshape : segOf (p, b) =
      (' ' :: p) ++ ((sep3 ++ ['\n']) ++ (b ++ ('\n' :: (endMarker ++ ['\n'])))) := by
    simp [segOf]
  rw [hshape]
  have hnotp : ('=' : Char) ∉ ' ' :: p := by
    intro h
    rcases List.mem_cons.mp h with h | h
    · exact absurd h (by decide)
    · exact hp.1 h
  apply not_infix_append
  · exact not_infix_of_mem_not_mem (by decide) hnotp
  · exact marker_not_infix_tail2 hb.1
  · intro v w hv _ hvxs _ hsep
    have hvpre : v <+: fileMarker := ⟨w, hsep.symm⟩
    exact hnotp (hvxs.subset (prefix_head_mem hvpre hv))

theorem findSplit_sep3_seg {p b : LC} (hp : cleanPath p) :
    findSplit sep3 (segOf (p, b)) =
      some (' ' :: p, '\n' :: (b ++ '\n' :: (endMarker ++ ['\n']))) := by
  have hshape : segOf (p, b) =
      (' ' :: p) ++ (sep3 ++ ('\n' :: (b ++ '\n' :: (endMarker ++ ['\n'])))) := by
    simp [segOf]
  have hnotp : ('=' : Char) ∉ ' ' :: p := by
    intro h
    rcases List.mem_cons.mp h with h | h
    · exact absurd h (by decide)
    · exact hp.1 h
  rw [hshape, findSplit_shift ?h1 ?h2, findSplit_self_append sep3_ne]
  · simp
  case h1 => exact not_infix_of_mem_not_mem (by decide) hnotp
  case h2 =>
    intro v hsuf hv hpre
    exact hnotp (hsuf.subset (prefix_head_mem hpre hv))

theorem content_round {b : LC} (hb : cleanBody b) :
    strip (replaceAll endMarker ('\n' :: (b ++ '\n' :: (endMarker ++ ['\n'])))) = b := by
  have hfs : findSplit endMarker ('\n' :: (b ++ '\n' :: (endMarker ++ ['\n']))) =
      some (('\n' :: b) ++ ['\n'], ['\n']) := by
    have hshape : '\n' :: (b ++ '\n' :: (endMarker ++ ['\n'])) =
        (('\n' :: b) ++ ['\n']) ++ (endMarker ++ ['\n']) := by simp
    rw [hshape, findSplit_shift ?h1 ?h2, findSplit_self_append endMarker_ne]
    · simp
    case h1 => exact endMarker_not_infix_wrap hb.2.1
    case h2 =>
      intro v hsuf hv hpre
      exact absurd (hpre.subset (last_mem_of_suffix hsuf hv)) (by decide)
  have hrep : replaceAll endMarker ('\n' :: (b ++ '\n' :: (endMarker ++ ['\n']))) =
      (('\n' :: b) ++ ['\n']) ++ ['\n'] := by
    rw [replaceAll_unfold endMarker_ne, hfs]
    rfl
  rw [hrep]
  have hshape2 : (('\n' :: b) ++ ['\n']) ++ ['\n'] = '\n' :: (b ++ '\n' :: ['\n']) := by simp
  rw [hshape2]
  exact strip_nl_wrap hb.2.2

/-- The keys of an association list, in insertion order. -/
def keysOf (m : List (LC × LC)) : List LC := m.map Prod.fst

theorem upsert_append {acc : List (LC × LC)} {k v : LC} (h : k ∉ keysOf acc) :
    upsert acc k v = acc ++ [(k, v)] := by
  induction acc with
  | nil => rfl
  | cons e rest ih =>
    simp only [keysOf, List.map_cons, List.mem_cons, not_or] at h
    simp only [upsert]
    rw [if_neg (fun he => h.1 he.symm), ih h.2]
    rfl

theorem parse_seg_step {p b : LC} (hp : cleanPath p) (hb : cleanBody b)
    (rest : List LC) (acc : List (LC × LC)) :
    parseParts (segOf (p, b) :: rest) acc = parseParts rest (upsert acc p b) := by
  simp only [parseParts, findSplit_sep3_seg hp]
  rw [strip_cons_space (by decide) p, hp.2, content_round hb]

theorem parseParts_segs :
    ∀ (m : List (LC × LC)) (acc : List (LC × LC)),
      (∀ e ∈ m, cleanPath e.1 ∧ cleanBody e.2) → (keysOf m).Nodup →
      (∀ k ∈ keysOf m, k ∉ keysOf acc) →
      parseParts (m.map segOf) acc = acc ++ m := by
  intro m
  induction m with
  | nil => intro acc _ _ _; simp [parseParts]
  | cons e m' ih =>
    intro acc hc hk hfresh
    obtain ⟨p, b⟩ := e
    have hpb := hc (p, b) (by simp)
    rw [List.map_cons, parse_seg_step hpb.1 hpb.2]
    have hpfresh : p ∉ keysOf acc := hfresh p (by simp [keysOf])
    rw [upsert_append hpfresh]
    have hknodup : (keysOf m').Nodup := by
      have : keysOf ((p, b) :: m') = p :: keysOf m' := rfl
      rw [this] at hk
      exact hk.of_cons
    have hphead : p ∉ keysOf m' := by
      have : keysOf ((p, b) :: m') = p :: keysOf m' := rfl
      rw [this] at hk
      exact (List.nodup_cons.mp hk).1
    rw [ih (acc ++ [(p, b)]) (fun e he => hc e (by simp [he])) hknodup ?fresh]
    · simp
    case fresh =>
      intro k hkm
      have hkacc : k ∉ keysOf acc := hfresh k (List.mem_cons_of_mem p hkm)
      have hkp : k ≠ p := fun he => hphead (he ▸ hkm)
      have hkeys : keysOf (acc ++ [(p, b)]) = keysOf acc ++ [p] := by simp [keysOf]
      rw [hkeys]
      intro hcon
      rcases List.mem_append.mp hcon with h | h
      · exact hkacc h
      · exact hkp (by simpa using h)

theorem splitOnSub_seg_chain :
    ∀ (m : List (LC × LC)) (e : LC × LC), cleanPath e.1 → cleanBody e.2 →
      (∀ e' ∈ m, cleanPath e'.1 ∧ cleanBody e'.2) →
      splitOnSub fileMarker (segOf e ++ serializeFiles m) = segOf e :: m.map segOf := by
  intro m
  induction m with
  | nil =>
    intro e hp hb _
    obtain ⟨p, b⟩ := e
    have hser : serializeFiles ([] : List (LC × LC)) = [] := rfl
    rw [hser, List.append_nil, splitOnSub_unfold fileMarker_ne,
        (findSplit_none_iff fileMarker_ne).mpr (marker_not_infix_seg hp hb)]
    rfl
  | cons e' m' ih =>
    intro e hp hb hm
    obtain ⟨p, b⟩ := e
    have hfs : findSplit fileMarker (segOf (p, b) ++ serializeFiles (e' :: m')) =
        some (segOf (p, b), segOf e' ++ serializeFiles m') := by
      rw [serializeFiles_cons, findSplit_shift (marker_not_infix_seg hp hb)
            (suffix_seg_kill (by decide)), findSplit_self_append fileMarker_ne]
      simp
    rw [splitOnSub_unfold fileMarker_ne, hfs]
    change segOf (p, b) :: splitOnSub fileMarker (segOf e' ++ serializeFiles m') =
      segOf (p, b) :: List.map segOf (e' :: m')
    rw [ih e' (hm e' (by simp)).1 (hm e' (by simp)).2 (fun x hx => hm x (by simp [hx]))]
    rfl

theorem splitOnSub_serialize (m : List (LC × LC))
    (hc : ∀ e ∈ m, cleanPath e.1 ∧ cleanBody e.2) :
    splitOnSub fileMarker (serializeFiles m) = [] :: m.map segOf := by
  cases m with
  | nil => rfl
  | cons e m' =>
    rw [serializeFiles_cons, splitOnSub_unfold fileMarker_ne,
        findSplit_self_append fileMarker_ne]
    change ([] : LC) :: splitOnSub fileMarker (segOf e ++ serializeFiles m') =
      [] :: List.map segOf (e :: m')
    rw [splitOnSub_seg_chain m' e (hc e (by simp)).1 (hc e (by simp)).2
        (fun x hx => hc x (by simp [hx]))]
    rfl

instance (p : LC) : Decidable (cleanPath p) :=
  inferInstanceAs (Decidable (('=' : Char) ∉ p ∧ strip p = p))

instance (b : LC) : Decidable (cleanBody b) :=
  inferInstanceAs (Decidable
    (findSplit fileMarker b = none ∧ findSplit endMarker b = none ∧ strip b = b))

/-- Claim C4 counterexample: the round trip fails on a mapping whose body
carries leading whitespace — `strip` in the parser drops it, so the parsed
mapping differs from the original. -/
theorem claim_C4_counterexample :
    parseFiles (serializeFiles [("a".data, " x".data)]) ≠ [("a".data, " x".data)] := by
  decide

/-- Claim C4 amended: for every mapping whose paths are delimiter-clean (no
`=` character, strip-invariant) and whose bodies are delimiter-clean (no
embedded start or end marker, strip-invariant), with pairwise distinct
paths, serializing with the delimiter convention and parsing with the
Artifact Parser returns the original mapping. -/
theorem claim_C4_amended (m : List (LC × LC))
    (hc : ∀ e ∈ m, cleanPath e.1 ∧ cleanBody e.2)
    (hk : (keysOf m).Nodup) :
    parseFiles (serializeFiles m) = m := by
  have h := parseParts_segs m [] hc hk (by simp [keysOf])
  unfold parseFiles
  rw [splitOnSub_serialize m hc]
  simpa using h

/-- Witness for the amended C4 on a concrete two-file mapping. -/
theorem claim_C4_witness :
    parseFiles (serializeFiles
      [("src/App.jsx".data, "const a = 1\nconst b = 2".data),
       ("package.json".data, "name: demo".data)]) =
      [("src/App.jsx".data, "const a = 1\nconst b = 2".data),
       ("package.json".data, "name: demo".data)] :=
  claim_C4_amended _ (by decide) (by decide)

end Orch
